import Mathlib

/-!
Verification of the `exit-future` crate (`src/src/lib.rs`): a graceful-shutdown
signalling primitive.  `signal()` creates a `Signal` / `Exit` pair sharing one
broadcast channel; firing the `Signal` (explicitly or on drop) resolves the
`Exit` and every clone of it.

The underlying broadcast transport (`broadcaster::BroadcastChannel<()>`) and
the executor are external dependencies consumed as black boxes; they are
modelled here from the contract the specification gives them.  The core logic —
`Exit`'s `poll`, `until` and `wait`, `Signal::fire`, `Drop for Signal`, and
`signal()` — is translated from the source.

Because a `Signal` carries no state of its own beyond the shared channel
handle, its operations are modelled as functions on the shared `Transport`
state; an `Exit` additionally carries its private receiver position.
-/

namespace ExitFuture

/-- Result of polling a future once: either ready with a value, or pending. -/
inductive Poll (α : Type) where
  | ready (value : α)
  | pending
  deriving Repr, DecidableEq

/-- Modelled from the spec: the shared state of the external many-to-many
broadcast transport (`broadcaster::BroadcastChannel<()>` in the source,
consumed as a black box).  `sends` counts the values the unique sender side has
delivered, `senderAlive` records whether the sender half still exists, and
`broken` models the external failure mode in which the transport is torn down
and further sends are rejected. -/
structure Transport where
  sends : Nat
  senderAlive : Bool
  broken : Bool
  deriving Repr, DecidableEq

/-- `Exit` wraps one receiver handle into the transport; `received` counts the
values this particular handle has already consumed.  The shared channel state
is threaded separately as a `Transport`. -/
structure Exit where
  received : Nat
  deriving Repr, DecidableEq

/-- Modelled from the spec: `BroadcastChannel::send` delivers one value to
every current and future receiver handle, and fails exactly when the transport
has been torn down. -/
def Transport.send (t : Transport) : Except Unit Transport :=
  if t.broken then .error () else .ok { t with sends := t.sends + 1 }

/-- Modelled from the spec: one poll of `BroadcastChannel::recv` on a receiver
handle.  It resolves with a value while the handle has consumed fewer values
than were sent, resolves with `none` (channel closed) when the sender half is
gone and nothing is left to deliver, and is pending otherwise. -/
def Transport.recv (t : Transport) (e : Exit) : Poll (Option Unit × Exit) :=
  if e.received < t.sends then .ready (some (), { received := e.received + 1 })
  else if t.senderAlive then .pending
  else .ready (none, e)

/-- `impl Future for Exit`: each poll builds a fresh `recv` future, polls it
once, and maps the output through `drop`, so the `Exit` yields `()` whenever
the receive resolves — with a delivered value or with the closed indication —
and stays pending otherwise. -/
def Exit.poll (t : Transport) (e : Exit) : Poll Unit × Exit :=
  match Transport.recv t e with
  | .ready (_, e2) => (.ready (), e2)
  | .pending => (.pending, e)

/-- `derive Clone` for `Exit`, with the transport contract of the spec: a clone
is a fresh receiver handle over the same transport, and every current and
future clone observes each delivered value once. -/
def Exit.clone (_ : Exit) : Exit := { received := 0 }

/-- One poll of the future returned by `Exit::until`:
`select(self, future).map(..)` polls the `Exit` side first; `Either::Left`
(exit finished) is mapped to `none` and `Either::Right` (work finished) to
`some output`. -/
def Exit.untilPoll {α : Type} (t : Transport) (e : Exit) (work : Poll α) :
    Poll (Option α) × Exit :=
  match Exit.poll t e with
  | (.ready _, e2) => (.ready none, e2)
  | (.pending, e2) =>
    match work with
    | .ready a => (.ready (some a), e2)
    | .pending => (.pending, e2)

/-- Driving the future returned by `Exit::until` to completion: the transport
may change between polls (trace `tt`), and the work future is modelled by the
sequence of its poll results (`wt`).  Returns `some outcome` when the race is
decided within `fuel` polls, starting at step `i`. -/
def Exit.untilRun {α : Type} (tt : Nat → Transport) (wt : Nat → Poll α) :
    Nat → Exit → Nat → Option (Option α)
  | _, _, 0 => none
  | i, e, fuel + 1 =>
    match Exit.untilPoll (tt i) e (wt i) with
    | (.ready r, _) => some r
    | (.pending, e2) => Exit.untilRun tt wt (i + 1) e2 fuel

/-- `block_on(self)` inside `Exit::wait`: poll the `Exit` repeatedly, blocking
the calling thread, until it resolves; the transport may change between polls
(another thread may fire the signal). -/
def Exit.blockOn (tt : Nat → Transport) : Nat → Exit → Nat → Option Exit
  | _, _, 0 => none
  | i, e, fuel + 1 =>
    match Exit.poll (tt i) e with
    | (.ready _, e2) => some e2
    | (.pending, e2) => Exit.blockOn tt (i + 1) e2 fuel

/-- `Exit::wait`: block the current thread until the `Exit` completes, i.e.
drive it with `block_on` starting from the first step. -/
def Exit.wait (tt : Nat → Transport) (e : Exit) (fuel : Nat) : Option Exit :=
  Exit.blockOn tt 0 e fuel

/-- `Signal::fire`: `block_on(self.0.send(&())).map_err(drop)` — takes the
signal by shared reference, performs a fresh send on the shared channel, and
surfaces a send failure as `Err(())` instead of panicking. -/
def Signal.fire (t : Transport) : Except Unit Transport :=
  Transport.send t

/-- `impl Drop for Signal`: `self.fire().unwrap()` — the destructor
unconditionally attempts one more fire and panics (modelled as `none`) when
that fire fails; afterwards the sender half of the transport is gone. -/
def Signal.dropSignal (t : Transport) : Option Transport :=
  match Signal.fire t with
  | .ok t2 => some { t2 with senderAlive := false }
  | .error _ => none

/-- `signal()`: allocates a fresh broadcast channel and returns the `Signal`
wrapping its sender side together with an `Exit` wrapping a cloned receiver
handle.  The `Transport` component is the channel state the new `Signal`
acts on. -/
def signal : Transport × Exit :=
  ({ sends := 0, senderAlive := true, broken := false }, { received := 0 })

/-- A transport state in which the signal has fired once, used to exercise the
theorems on concrete inputs. -/
def firedTransport : Transport :=
  { sends := 1, senderAlive := true, broken := false }

/-- The constant transport trace in which the signal has already fired. -/
def firedTrace : Nat → Transport := fun _ => firedTransport

/-- A work future that is ready with value `5` at every poll. -/
def readyWork : Nat → Poll Nat := fun _ => .ready 5

/-- A transport state whose external failure mode is active (torn down), used
to exercise the error paths on a concrete input. -/
def brokenTransport : Transport :=
  { sends := 0, senderAlive := true, broken := true }

/-- An operation a user can perform on one `signal()` group: firing the
signal, dropping it, polling the clone with index `i`, or cloning the clone
with index `i` (the new clone is appended at the end). -/
inductive Op where
  | fire
  | dropSig
  | poll (i : Nat)
  | clone (i : Nat)
  deriving Repr, DecidableEq

/-- A `signal()` group mid-execution: the shared transport together with the
live `Exit` clones, each paired with the flag recording whether that clone has
already resolved (yielded `()` from a poll). -/
structure GroupState where
  transport : Transport
  handles : List (Exit × Bool)
  deriving Repr, DecidableEq

/-- The group as returned by `signal()`: a fresh transport and the one
initial `Exit`, unresolved. -/
def initialGroup : GroupState :=
  { transport := signal.1, handles := [(signal.2, false)] }

/-- One execution step of an operation on the group.  A failed fire leaves
the state unchanged (the error goes back to the caller), a failed drop halts
the process, modelled as leaving the state unchanged, and operations on
absent indices are no-ops. -/
def stepOp (s : GroupState) : Op → GroupState
  | Op.fire =>
    match Signal.fire s.transport with
    | Except.ok t2 => { s with transport := t2 }
    | Except.error _ => s
  | Op.dropSig =>
    match Signal.dropSignal s.transport with
    | some t2 => { s with transport := t2 }
    | none => s
  | Op.poll i =>
    match s.handles[i]? with
    | some (e, _) =>
      match Exit.poll s.transport e with
      | (Poll.ready _, e2) => { s with handles := s.handles.set i (e2, true) }
      | (Poll.pending, _) => s
    | none => s
  | Op.clone i =>
    match s.handles[i]? with
    | some (e, _) => { s with handles := s.handles ++ [(Exit.clone e, false)] }
    | none => s

/-- Run a sequence of operations on the group from a starting state. -/
def runOps (s : GroupState) (ops : List Op) : GroupState :=
  ops.foldl stepOp s

/-- Whether polling clone `i` in state `s` resolves it (yields `()`). -/
def pollResolves (s : GroupState) (i : Nat) : Bool :=
  match s.handles[i]? with
  | some (e, _) =>
    match (Exit.poll s.transport e).1 with
    | Poll.ready _ => true
    | Poll.pending => false
  | none => false

/-- The Future contract for one operation: a clone that has already resolved
must not be polled again. -/
def legalOp (s : GroupState) : Op → Bool
  | Op.poll i =>
    match s.handles[i]? with
    | some (_, r) => !r
    | none => true
  | _ => true

/-- A sequence of operations respecting the Future contract throughout: no
clone is polled again after it has resolved. -/
def disciplinedRun : GroupState → List Op → Bool
  | _, [] => true
  | s, op :: rest => legalOp s op && disciplinedRun (stepOp s op) rest

/-- How many times clone `i` resolves (yields `()` from a poll) along a
sequence of operations. -/
def resolutionCount : GroupState → Nat → List Op → Nat
  | _, _, [] => 0
  | s, i, op :: rest =>
    (if op = Op.poll i ∧ pollResolves s i = true then 1 else 0)
      + resolutionCount (stepOp s op) i rest

/-! ### Helper lemmas -/

/-- A pending poll leaves the receiver handle unchanged. -/
theorem Exit.poll_pending_eq {t : Transport} {e : Exit}
    (h : (Exit.poll t e).1 = Poll.pending) : Exit.poll t e = (Poll.pending, e) := by
  cases hr : Transport.recv t e with
  | ready p => simp [Exit.poll, hr] at h
  | pending => simp [Exit.poll, hr]

/-- When both sides of the race are pending, one poll of the `until` future is
pending and leaves the handle unchanged. -/
theorem Exit.untilPoll_of_pending {α : Type} {t : Transport} {e : Exit} {w : Poll α}
    (he : (Exit.poll t e).1 = Poll.pending) (hw : w = Poll.pending) :
    Exit.untilPoll t e w = (Poll.pending, e) := by
  rw [Exit.untilPoll, Exit.poll_pending_eq he, hw]

/-- When the `Exit` side polls ready, the `until` future resolves to `none`,
whatever the state of the work future. -/
theorem Exit.untilPoll_of_exit_ready {α : Type} {t : Transport} {e : Exit} {w : Poll α}
    (he : (Exit.poll t e).1 = Poll.ready ()) :
    Exit.untilPoll t e w = (Poll.ready none, (Exit.poll t e).2) := by
  rw [Exit.untilPoll]
  cases hp : Exit.poll t e with
  | mk r e2 =>
    rw [hp] at he
    simp only at he
    rw [he]

/-- When the `Exit` side is pending and the work side is ready, the `until`
future resolves to `some` of the work's output. -/
theorem Exit.untilPoll_of_work_ready {α : Type} {t : Transport} {e : Exit} {w : Poll α}
    {a : α} (he : (Exit.poll t e).1 = Poll.pending) (hw : w = Poll.ready a) :
    Exit.untilPoll t e w = (Poll.ready (some a), e) := by
  rw [Exit.untilPoll, Exit.poll_pending_eq he, hw]

/-- A pending poll of the `until` future recurses on the next step with the
same handle. -/
theorem Exit.untilRun_step {α : Type} (tt : Nat → Transport) (wt : Nat → Poll α)
    (i fuel : Nat) (e : Exit)
    (h : Exit.untilPoll (tt i) e (wt i) = (Poll.pending, e)) :
    Exit.untilRun tt wt i e (fuel + 1) = Exit.untilRun tt wt (i + 1) e fuel := by
  rw [Exit.untilRun, h]

/-- With one unit of fuel, a ready poll of the `until` future decides the
race. -/
theorem Exit.untilRun_one {α : Type} (tt : Nat → Transport) (wt : Nat → Poll α)
    (i : Nat) (e : Exit) (r : Option α) (x : Exit)
    (h : Exit.untilPoll (tt i) e (wt i) = (Poll.ready r, x)) :
    Exit.untilRun tt wt i e 1 = some r := by
  have h1 : (1 : Nat) = 0 + 1 := rfl
  rw [h1, Exit.untilRun, h]

/-- Steps on which both sides of the race are pending can be skipped when
running the `until` future. -/
theorem Exit.untilRun_skip {α : Type} (tt : Nat → Transport) (wt : Nat → Poll α) :
    ∀ (n i : Nat) (e : Exit),
      (∀ j, j < n → Exit.untilPoll (tt (i + j)) e (wt (i + j)) = (Poll.pending, e)) →
      Exit.untilRun tt wt i e (n + 1) = Exit.untilRun tt wt (i + n) e 1 := by
  intro n
  induction n with
  | zero => intro i e _; rfl
  | succ n ih =>
    intro i e hpend
    have h0 : Exit.untilPoll (tt i) e (wt i) = (Poll.pending, e) := by
      have := hpend 0 (Nat.succ_pos n)
      simpa using this
    rw [Exit.untilRun_step tt wt i (n + 1) e h0]
    have := ih (i + 1) e (fun j hj => by
      have := hpend (j + 1) (by omega)
      have harith : i + (j + 1) = i + 1 + j := by omega
      rwa [harith] at this)
    rw [this]
    congr 1
    omega

/-- `block_on` never returns while every poll of the `Exit` is pending. -/
theorem Exit.blockOn_none (tt : Nat → Transport) (e : Exit)
    (hp : ∀ i, (Exit.poll (tt i) e).1 = Poll.pending) :
    ∀ fuel i, Exit.blockOn tt i e fuel = none := by
  intro fuel
  induction fuel with
  | zero => intro i; rfl
  | succ fuel ih =>
    intro i
    rw [Exit.blockOn, Exit.poll_pending_eq (hp i)]
    exact ih (i + 1)

/-- A poll of clone `i` resolves exactly when the clone exists and its poll
yields ready. -/
theorem pollResolves_iff (s : GroupState) (i : Nat) :
    pollResolves s i = true ↔
      ∃ e r, s.handles[i]? = some (e, r) ∧
        (Exit.poll s.transport e).1 = Poll.ready () := by
  constructor
  · intro h
    cases hg : s.handles[i]? with
    | none => simp [pollResolves, hg] at h
    | some p =>
      obtain ⟨e, r⟩ := p
      cases hp : (Exit.poll s.transport e).1 with
      | ready u =>
        cases u
        exact ⟨e, r, rfl, hp⟩
      | pending => simp [pollResolves, hg, hp] at h
  · rintro ⟨e, r, hg, hp⟩
    simp [pollResolves, hg, hp]

/-- Any operation other than a poll of clone `i` preserves the fact that
clone `i` has already resolved. -/
theorem resolvedFlag_preserved (s : GroupState) (op : Op) (i : Nat) (e : Exit)
    (hg : s.handles[i]? = some (e, true)) (hne : ∀ j, op = Op.poll j → j ≠ i) :
    (stepOp s op).handles[i]? = some (e, true) := by
  have hlt : i < s.handles.length := by
    rcases List.getElem?_eq_some.mp hg with ⟨h, _⟩
    exact h
  cases op with
  | fire =>
    cases hf : Signal.fire s.transport with
    | ok t2 => simp [stepOp, hf, hg]
    | error u => simp [stepOp, hf, hg]
  | dropSig =>
    cases hf : Signal.dropSignal s.transport with
    | some t2 => simp [stepOp, hf, hg]
    | none => simp [stepOp, hf, hg]
  | poll j =>
    have hji : j ≠ i := hne j rfl
    cases hgj : s.handles[j]? with
    | none => simp [stepOp, hgj, hg]
    | some p =>
      obtain ⟨ej, rj⟩ := p
      cases hq : Exit.poll s.transport ej with
      | mk a e2 =>
        cases a with
        | ready u => simp [stepOp, hgj, hq, List.getElem?_set_ne hji, hg]
        | pending => simp [stepOp, hgj, hq, hg]
  | clone j =>
    cases hgj : s.handles[j]? with
    | none => simp [stepOp, hgj, hg]
    | some p =>
      obtain ⟨ej, rj⟩ := p
      simp [stepOp, hgj, List.getElem?_append, hlt, hg]

/-- Along a disciplined run, a clone that has already resolved never resolves
again. -/
theorem resolutionCount_eq_zero_of_resolved (ops : List Op) :
    ∀ (s : GroupState) (i : Nat) (e : Exit),
      s.handles[i]? = some (e, true) →
      disciplinedRun s ops = true →
      resolutionCount s i ops = 0 := by
  induction ops with
  | nil => intro s i e _ _; rfl
  | cons op rest ih =>
    intro s i e hg hd
    simp only [disciplinedRun, Bool.and_eq_true] at hd
    obtain ⟨hop, hrest⟩ := hd
    have hne : ∀ j, op = Op.poll j → j ≠ i := by
      intro j hj hji
      subst hji
      subst hj
      simp [legalOp, hg] at hop
    have hflag := resolvedFlag_preserved s op i e hg hne
    simp only [resolutionCount]
    have hcontrib : (if op = Op.poll i ∧ pollResolves s i = true then 1 else 0) = 0 := by
      rw [if_neg]
      rintro ⟨h1, _⟩
      exact hne i h1 rfl
    rw [hcontrib, Nat.zero_add]
    exact ih (stepOp s op) i e hflag hrest

/-- Along any disciplined run, each clone resolves at most once. -/
theorem resolutionCount_le_one (ops : List Op) :
    ∀ (s : GroupState) (i : Nat),
      disciplinedRun s ops = true → resolutionCount s i ops ≤ 1 := by
  induction ops with
  | nil => intro s i _; exact Nat.zero_le 1
  | cons op rest ih =>
    intro s i hd
    simp only [disciplinedRun, Bool.and_eq_true] at hd
    obtain ⟨hop, hrest⟩ := hd
    simp only [resolutionCount]
    by_cases hc : op = Op.poll i ∧ pollResolves s i = true
    · rw [if_pos hc]
      obtain ⟨h1, h2⟩ := hc
      obtain ⟨e, r, hg, hp⟩ := (pollResolves_iff s i).mp h2
      have hlt : i < s.handles.length := by
        rcases List.getElem?_eq_some.mp hg with ⟨h, _⟩
        exact h
      obtain ⟨e2, hq⟩ : ∃ e2, Exit.poll s.transport e = (Poll.ready (), e2) := by
        cases hq : Exit.poll s.transport e with
        | mk a b =>
          rw [hq] at hp
          simp only at hp
          exact ⟨b, by rw [hp]⟩
      subst h1
      have hstep : (stepOp s (Op.poll i)).handles[i]? = some (e2, true) := by
        simp only [stepOp, hg, hq]
        exact List.getElem?_set_eq_of_lt _ hlt
      have hzero := resolutionCount_eq_zero_of_resolved rest (stepOp s (Op.poll i)) i e2 hstep hrest
      omega
    · rw [if_neg hc, Nat.zero_add]
      exact ih (stepOp s op) i hrest

/-! ### Claims -/

/-- C1: the pair returned by `signal()` is immediately ready to be used: its
`Exit` has consumed nothing, `signal()` and the first fire have no error
conditions, and after any successful fire — at any later point — the paired
`Exit` and every clone made before the fire (any handle that has consumed
nothing, which includes every clone since `clone` yields a fresh handle)
resolves when polled. -/
theorem C1_signal_fire_resolves_all_clones :
    signal.2.received = 0 ∧
    (∀ e : Exit, (Exit.clone e).received = 0) ∧
    Signal.fire signal.1 = Except.ok { sends := 1, senderAlive := true, broken := false } ∧
    ∀ (t t2 : Transport), Signal.fire t = Except.ok t2 →
      ∀ e : Exit, e.received = 0 → (Exit.poll t2 e).1 = Poll.ready () := by
  refine ⟨rfl, fun e => rfl, rfl, ?_⟩
  intro t t2 hfire e he
  rw [Signal.fire, Transport.send] at hfire
  cases hb : t.broken with
  | true => simp [hb] at hfire
  | false =>
    simp [hb] at hfire
    subst hfire
    simp [Exit.poll, Transport.recv, he]

/-- Witness for C1 at the concrete pair returned by `signal()`. -/
theorem C1_witness :
    Signal.fire signal.1 = Except.ok firedTransport ∧
    (Exit.poll firedTransport signal.2).1 = Poll.ready () := by
  constructor
  · exact C1_signal_fire_resolves_all_clones.2.2.1
  · exact C1_signal_fire_resolves_all_clones.2.2.2 signal.1 firedTransport rfl signal.2 rfl

/-- C2: dropping a `Signal` on which `fire()` was never called resolves every
`Exit` clone attached to the same transport (any handle that has consumed at
most what was sent), with exactly the same poll outcome as an explicit
`fire()` from the same state. -/
theorem C2_drop_equals_fire (t : Transport) (e : Exit)
    (hb : t.broken = false) (hr : e.received ≤ t.sends) :
    Signal.dropSignal t
      = some { sends := t.sends + 1, senderAlive := false, broken := t.broken } ∧
    Signal.fire t = Except.ok { t with sends := t.sends + 1 } ∧
    (Exit.poll { sends := t.sends + 1, senderAlive := false, broken := t.broken } e).1
      = (Exit.poll { t with sends := t.sends + 1 } e).1 ∧
    (Exit.poll { sends := t.sends + 1, senderAlive := false, broken := t.broken } e).1
      = Poll.ready () := by
  have hfire : Signal.fire t = Except.ok { t with sends := t.sends + 1 } := by
    rw [Signal.fire, Transport.send]
    simp [hb]
  have hlt : e.received < t.sends + 1 := by omega
  refine ⟨?_, hfire, ?_, ?_⟩
  · rw [Signal.dropSignal, hfire]
  · simp [Exit.poll, Transport.recv, hlt]
  · simp [Exit.poll, Transport.recv, hlt]

/-- Witness for C2 at the freshly constructed pair. -/
theorem C2_witness :
    Signal.dropSignal signal.1
      = some { sends := 1, senderAlive := false, broken := false } ∧
    (Exit.poll { sends := 1, senderAlive := false, broken := false } signal.2).1
      = Poll.ready () := by
  have h := C2_drop_equals_fire signal.1 signal.2 rfl (by decide)
  exact ⟨h.1, h.2.2.2⟩

/-- C4 counterexample: a legal Rust sequence on one group — explicit fire,
poll the clone (it resolves), drop the `Signal`, poll the same clone again —
makes that one clone yield `()` twice: the destructor performs a second send,
so the re-poll resolves again.  Each step here is well-formed code; only the
Future contract (no poll after ready) is violated, which the claim's
quantification over every sequence of operations does not exclude. -/
theorem C4_counterexample :
    resolutionCount initialGroup 0 [Op.fire, Op.poll 0, Op.dropSig, Op.poll 0] = 2 := by
  decide

/-- C4 (amended): along every sequence of operations on the group created by
`signal()` that respects the Future contract — no clone is polled again after
it has resolved — each `Exit` clone resolves at most once; and in the state
any sequence reaches, every clone's poll yields the same logical outcome,
`()`, or is still pending. -/
theorem C4_disciplined_at_most_once (ops : List Op) (i : Nat)
    (hd : disciplinedRun initialGroup ops = true) :
    resolutionCount initialGroup i ops ≤ 1 ∧
    ∀ e r, (runOps initialGroup ops).handles[i]? = some (e, r) →
      (Exit.poll (runOps initialGroup ops).transport e).1 = Poll.ready () ∨
      (Exit.poll (runOps initialGroup ops).transport e).1 = Poll.pending := by
  constructor
  · exact resolutionCount_le_one ops initialGroup i hd
  · intro e r _
    cases hp : (Exit.poll (runOps initialGroup ops).transport e).1 with
    | ready u => cases u; exact Or.inl rfl
    | pending => exact Or.inr rfl

/-- Witness for C4: a disciplined run — fire, poll the original clone, clone
it, poll the new clone — is legal and resolves the original clone at most
once. -/
theorem C4_witness :
    disciplinedRun initialGroup [Op.fire, Op.poll 0, Op.clone 0, Op.poll 1] = true ∧
    resolutionCount initialGroup 0 [Op.fire, Op.poll 0, Op.clone 0, Op.poll 1] ≤ 1 :=
  ⟨by decide,
    (C4_disciplined_at_most_once [Op.fire, Op.poll 0, Op.clone 0, Op.poll 1] 0 (by decide)).1⟩

/-- C5: the destructor of `Signal` unconditionally attempts a fire; when that
fire fails the failure is fatal (a panic, modelled as `none`), and when it
succeeds the destructor completes normally. -/
theorem C5_destructor_fire_fatal (t : Transport) :
    (Signal.fire t = Except.error () → Signal.dropSignal t = none) ∧
    (∀ t2, Signal.fire t = Except.ok t2 →
      Signal.dropSignal t = some { t2 with senderAlive := false }) := by
  constructor
  · intro h
    rw [Signal.dropSignal, h]
  · intro t2 h
    rw [Signal.dropSignal, h]

/-- Witness for C5 at a torn-down transport, where the implicit fire fails. -/
theorem C5_witness : Signal.dropSignal brokenTransport = none :=
  (C5_destructor_fire_fatal brokenTransport).1 rfl

/-- C6: an explicit `Signal::fire` whose underlying send cannot be delivered
returns an error value rather than panicking (its result type carries no
panic), and on success it returns `Ok` having performed the send. -/
theorem C6_fire_error_not_panic (t : Transport) :
    (t.broken = true → Signal.fire t = Except.error ()) ∧
    (t.broken = false → Signal.fire t = Except.ok { t with sends := t.sends + 1 }) := by
  constructor
  · intro h
    rw [Signal.fire, Transport.send]
    simp [h]
  · intro h
    rw [Signal.fire, Transport.send]
    simp [h]

/-- Witness for C6 on a torn-down transport and on a fresh one. -/
theorem C6_witness :
    Signal.fire brokenTransport = Except.error () ∧
    Signal.fire signal.1 = Except.ok firedTransport := by
  constructor
  · exact (C6_fire_error_not_panic brokenTransport).1 rfl
  · exact (C6_fire_error_not_panic signal.1).2 rfl

/-- C7: polling an `Exit` never yields an error: whenever the underlying
receive resolves — with the delivered value or with the closed-without-value
indication — the `Exit` resolves to unit, otherwise the poll is pending; the
only observable states of a poll are resolved-with-unit and pending. -/
theorem C7_poll_never_errors (t : Transport) (e : Exit) :
    (∀ v e2, Transport.recv t e = Poll.ready (v, e2) →
      Exit.poll t e = (Poll.ready (), e2)) ∧
    (Transport.recv t e = Poll.pending → Exit.poll t e = (Poll.pending, e)) ∧
    ((Exit.poll t e).1 = Poll.ready () ∨ (Exit.poll t e).1 = Poll.pending) := by
  refine ⟨?_, ?_, ?_⟩
  · intro v e2 h
    rw [Exit.poll, h]
  · intro h
    rw [Exit.poll, h]
  · cases hp : (Exit.poll t e).1 with
    | ready u => cases u; exact Or.inl rfl
    | pending => exact Or.inr rfl

/-- Witness for C7: a delivered value resolves the fired case and the fresh
case is pending. -/
theorem C7_witness :
    Exit.poll firedTransport { received := 0 } = (Poll.ready (), { received := 1 }) ∧
    Exit.poll signal.1 { received := 0 } = (Poll.pending, { received := 0 }) := by
  constructor
  · exact (C7_poll_never_errors firedTransport { received := 0 }).1
      (some ()) { received := 1 } rfl
  · exact (C7_poll_never_errors signal.1 { received := 0 }).2.1 rfl

/-- C3: `Exit::until` is a left-biased race.  Running the returned future over
a trace on which both sides are pending before step `n`: if at step `n` the
`Exit` is still pending and the work is ready with `a`, the future resolves to
`some a`; if at step `n` the `Exit` polls ready — whatever the state of the
work at that step, including ready — the future resolves to `none`.  The
already-fired case is the instance `n = 0`. -/
theorem C3_until_left_biased_race {α : Type} (tt : Nat → Transport)
    (wt : Nat → Poll α) (e : Exit) (n : Nat)
    (hbefore : ∀ i, i < n →
      (Exit.poll (tt i) e).1 = Poll.pending ∧ wt i = Poll.pending) :
    ((Exit.poll (tt n) e).1 = Poll.pending → ∀ a, wt n = Poll.ready a →
      Exit.untilRun tt wt 0 e (n + 1) = some (some a)) ∧
    ((Exit.poll (tt n) e).1 = Poll.ready () →
      Exit.untilRun tt wt 0 e (n + 1) = some none) := by
  have hskip : Exit.untilRun tt wt 0 e (n + 1) = Exit.untilRun tt wt n e 1 := by
    have h := Exit.untilRun_skip tt wt n 0 e (fun j hj => by
      have hp := hbefore j (by omega)
      have hz : (0 : Nat) + j = j := by omega
      rw [hz]
      exact Exit.untilPoll_of_pending hp.1 hp.2)
    simpa using h
  constructor
  · intro hp a hw
    rw [hskip]
    exact Exit.untilRun_one tt wt n e (some a) e (Exit.untilPoll_of_work_ready hp hw)
  · intro hr
    rw [hskip]
    exact Exit.untilRun_one tt wt n e none (Exit.poll (tt n) e).2
      (Exit.untilPoll_of_exit_ready hr)

/-- Witness for C3: after the signal has fired, racing against work that is
already ready still yields `none` — the `Exit` side wins. -/
theorem C3_witness :
    Exit.untilRun firedTrace readyWork 0 { received := 0 } 1 = some none :=
  (C3_until_left_biased_race firedTrace readyWork { received := 0 } 0
    (fun i hi => absurd hi (Nat.not_lt_zero i))).2 rfl

/-- C8: `Exit::wait` blocks the calling thread until the `Exit` resolves: it
returns nothing while every poll is pending, and on an `Exit` whose event has
already fired it returns immediately — the very first poll resolves,
whatever fuel beyond it is available. -/
theorem C8_wait_blocks_until_resolved (tt : Nat → Transport) (e : Exit) :
    (e.received < (tt 0).sends →
      ∀ fuel, Exit.wait tt e (fuel + 1) = some { received := e.received + 1 }) ∧
    ((∀ i, (Exit.poll (tt i) e).1 = Poll.pending) →
      ∀ fuel, Exit.wait tt e fuel = none) := by
  constructor
  · intro h fuel
    have hpoll : Exit.poll (tt 0) e = (Poll.ready (), { received := e.received + 1 }) := by
      simp [Exit.poll, Transport.recv, h]
    rw [Exit.wait, Exit.blockOn, hpoll]
  · intro h fuel
    rw [Exit.wait]
    exact Exit.blockOn_none tt e h fuel 0

/-- Witness for C8: waiting on an already-fired `Exit` returns at the first
poll. -/
theorem C8_witness :
    Exit.wait firedTrace { received := 0 } 1 = some { received := 1 } :=
  (C8_wait_blocks_until_resolved firedTrace { received := 0 }).1 (by decide) 0

/-- C9: `Signal::fire` performs a fresh send on every invocation: a first
fire delivers one more value, a second explicit fire after the successful
first attempts (and here performs) another send rather than being a no-op,
and dropping a `Signal` that was already explicitly and successfully fired
still performs and unwraps one more fire. -/
theorem C9_fire_fresh_send_each_time (t : Transport) (hb : t.broken = false) :
    Signal.fire t = Except.ok { t with sends := t.sends + 1 } ∧
    Signal.fire { t with sends := t.sends + 1 }
      = Except.ok { t with sends := t.sends + 1 + 1 } ∧
    Signal.dropSignal { t with sends := t.sends + 1 }
      = some { sends := t.sends + 1 + 1, senderAlive := false, broken := t.broken } := by
  have h1 : Signal.fire t = Except.ok { t with sends := t.sends + 1 } := by
    rw [Signal.fire, Transport.send]
    simp [hb]
  have h2 : Signal.fire { t with sends := t.sends + 1 }
      = Except.ok { t with sends := t.sends + 1 + 1 } := by
    rw [Signal.fire, Transport.send]
    simp [hb]
  refine ⟨h1, h2, ?_⟩
  rw [Signal.dropSignal, h2]

/-- Witness for C9 starting from the fresh pair: two sends accumulate. -/
theorem C9_witness :
    Signal.fire firedTransport
      = Except.ok { sends := 2, senderAlive := true, broken := false } ∧
    Signal.dropSignal firedTransport
      = some { sends := 2, senderAlive := false, broken := false } := by
  have h := C9_fire_fresh_send_each_time signal.1 rfl
  exact ⟨h.2.1, h.2.2⟩

/-- C10: a clone made after the event does not miss it: once the signal has
fired (at least one send), a clone of any handle polls ready, and a clone of
any `Exit` that has itself just resolved polls ready as well. -/
theorem C10_late_clone_resolves (t : Transport) (e : Exit) :
    (0 < t.sends → (Exit.poll t (Exit.clone e)).1 = Poll.ready ()) ∧
    (∀ e2, Exit.poll t e = (Poll.ready (), e2) →
      (Exit.poll t (Exit.clone e2)).1 = Poll.ready ()) := by
  constructor
  · intro h
    simp [Exit.clone, Exit.poll, Transport.recv, h]
  · intro e2 h
    cases hsa : t.senderAlive with
    | false =>
      rcases Nat.lt_or_ge 0 t.sends with hs | hs
      · simp [Exit.clone, Exit.poll, Transport.recv, hs]
      · have hs0 : t.sends = 0 := by omega
        simp [Exit.clone, Exit.poll, Transport.recv, hs0, hsa]
    | true =>
      have hlt : e.received < t.sends := by
        by_contra hc
        have hrecv : Transport.recv t e = Poll.pending := by
          rw [Transport.recv]
          simp [hc, hsa]
        simp [Exit.poll, hrecv] at h
      have hs : 0 < t.sends := by omega
      simp [Exit.clone, Exit.poll, Transport.recv, hs]

/-- Witness for C10: a clone of an already-resolved handle still resolves on
the fired transport. -/
theorem C10_witness :
    (Exit.poll firedTransport (Exit.clone { received := 1 })).1 = Poll.ready () :=
  (C10_late_clone_resolves firedTransport { received := 1 }).1 (by decide)

end ExitFuture
